import Mathlib

/-
  Verification development for the tap-xero extraction engine
  (src/tap_xero/__init__.py), a shallow embedding in Lean 4.

  The embedding translates the module's own functions — `sync`,
  `load_schema`, `load_metadata`, and the secret-rotation tail of
  `main_impl` — into pure Lean definitions.  External collaborators
  (the Context object, the singer library, the Google secret store,
  the per-stream extraction procedures) appear as parameters or as
  events recorded in a trace, exactly at the call boundaries the
  Python code uses.
-/

namespace TapXero

/-! ## Python value model -/

/-- Model of a Python value that is either `None` or a `str`, as stored under
the `"currently_syncing"` key of the persisted state dict. -/
inductive PyStr where
  | pynone
  | pystr (s : String)
deriving DecidableEq, Repr

/-- Model of `ctx.state.get("currently_syncing")`: a missing key (`none`) and a
stored `None` both yield Python `None`. -/
def stateGet : Option PyStr → PyStr
  | none => .pynone
  | some v => v

/-- Python truthiness of the `currently_syncing` value: `None` and the empty
string are falsy, every other string is truthy (`if currently_syncing else 0`
in the source). -/
def csTruthy : PyStr → Bool
  | .pynone => false
  | .pystr s => s ≠ ""

/-! ## Stream descriptors -/

/-- Model of a compiled-in stream descriptor from the `streams` module: the
fields of it that `__init__.py` reads.  The extraction procedure
(`stream.sync`) is not a field; the scheduler records its invocation as a
trace event instead. -/
structure Stream where
  tap_stream_id : String
  pk_fields : List String
  replication_method : String
  bookmark_key : Option PyStr
deriving DecidableEq, Repr

/-- Model of `streams_.all_stream_ids`, the declared-order id list. -/
def allStreamIds (all : List Stream) : List String :=
  all.map (·.tap_stream_id)

/-! ## The sync scheduler (`sync`, lines 97-113) -/

/-- Errors the scheduler can surface.  `valueError` models the Python
`ValueError` raised by `list.index` when the element is absent.
`invalidResumeStateError` is the error class the specification names; it is
declared here so that statements about it can be written — the source never
raises it (no such class exists in the code). -/
inductive SyncErr where
  | valueError
  | invalidResumeStateError
deriving DecidableEq, Repr

/-- Observable events of a sync run, in order: a persisted state write
(carrying the `currently_syncing` entry being persisted), a schema emission
(`load_and_write_schema`), and an invocation of a stream's extraction
procedure (`stream.sync(ctx)`). -/
inductive Ev where
  | writeState (cs : Option PyStr)
  | schema (id : String)
  | extract (id : String)
deriving DecidableEq, Repr

/-- Model of Python `list.index` on a list of strings: index of the first
occurrence, `ValueError` when absent. -/
def pyListIndex (xs : List String) (x : String) : Except SyncErr Nat :=
  match xs with
  | [] => .error .valueError
  | y :: ys =>
      if y = x then .ok 0
      else (pyListIndex ys x).map (· + 1)

/-- Result of a completed sync run: the trace of observable events and the
final in-memory value of `state["currently_syncing"]`. -/
structure SyncResult where
  trace : List Ev
  finalCS : Option PyStr
deriving DecidableEq, Repr

/-- Trace of the per-stream loop body (lines 106-111): checkpoint the stream
id to state, persist, emit the schema, then invoke extraction. -/
def streamBlock (s : Stream) : List Ev :=
  [ .writeState (some (.pystr s.tap_stream_id)),
    .schema s.tap_stream_id,
    .extract s.tap_stream_id ]

/-- Shallow embedding of `sync(ctx)` (lines 97-113).  Parameters: `all` is
`streams_.all_streams` (declared order), `selectedIds` is the list
`[cs.tap_stream_id for cs in ctx.catalog.streams if cs.is_selected()]`, and
`cs0` is the persisted `currently_syncing` entry of the incoming state
(`none` = key absent).  The preceding `ctx.refresh_credentials()` call is the
external Credential Manager and performs no state writes or emissions, so it
does not appear in the trace. -/
def syncRun (all : List Stream) (selectedIds : List String)
    (cs0 : Option PyStr) : Except SyncErr SyncResult :=
  let currently_syncing := stateGet cs0
  let startIdxE : Except SyncErr Nat :=
    if csTruthy currently_syncing then
      match currently_syncing with
      | .pystr s => pyListIndex (allStreamIds all) s
      | .pynone => .ok 0
    else .ok 0
  match startIdxE with
  | .error e => .error e
  | .ok start_idx =>
      let streams := (all.drop start_idx).filter
        (fun s => selectedIds.contains s.tap_stream_id)
      .ok { trace := streams.flatMap streamBlock ++ [.writeState (some .pynone)],
            finalCS := some .pynone }

/-- Stream ids whose extraction procedure was invoked, in invocation order. -/
def extractIds (t : List Ev) : List String :=
  t.filterMap (fun e => match e with | .extract id => some id | _ => none)

/-! ## Schema resolution (`load_schema`, lines 39-48) -/

mutual

/-- Model of a JSON schema document tree: leaves, internal reference
placeholders naming another stream's schema, and objects with named
children. -/
inductive SDoc where
  | leaf (s : String)
  | ref (id : String)
  | obj (children : SProps)

/-- Named children of a schema object node. -/
inductive SProps where
  | nil
  | cons (key : String) (doc : SDoc) (rest : SProps)

end

mutual

/-- Model of `singer.resolve_schema_references(schema, refs)` (external singer
collaborator): substitute every reference placeholder whose id appears in the
resolved-dependency mapping by the corresponding resolved schema. -/
def substDoc (refs : List (String × SDoc)) : SDoc → SDoc
  | .leaf s => .leaf s
  | .ref id =>
      match refs.lookup id with
      | some d => d
      | none => .ref id
  | .obj cs => .obj (substProps refs cs)

/-- Reference substitution over a children list. -/
def substProps (refs : List (String × SDoc)) : SProps → SProps
  | .nil => .nil
  | .cons k d rest => .cons k (substDoc refs d) (substProps refs rest)

end

/-- Model of a raw schema file `schemas/{id}.json`: its declared
`tap_schema_dependencies` list (popped by the code) and the remaining
document body. -/
structure RawSchema where
  deps : List String
  doc : SDoc

/-- Errors of schema loading.  `outOfFuel` marks an exhausted recursion
budget: a run of the Python code whose recursion depth exceeds any given
bound.  `schemaNotFound` models `utils.load_json` failing because no schema
file exists for the id.  `schemaCycleError` is the error the specification
names; it is declared so statements about it can be written — the source
has no such class and never raises it. -/
inductive LoadErr where
  | outOfFuel
  | schemaNotFound
  | schemaCycleError
deriving DecidableEq, Repr

mutual

/-- Shallow embedding of `load_schema(tap_stream_id)` (lines 39-48), with the
schema store (the `schemas/` directory) as a parameter and an explicit
recursion budget `fuel`: each recursive Python call consumes one unit.  The
code loads the raw document, pops its dependency list, recursively loads each
dependency into `refs`, and, when `refs` is non-empty, inlines them with
`singer.resolve_schema_references`. -/
def load_schema (store : String → Option RawSchema) :
    Nat → String → Except LoadErr SDoc
  | 0, _ => .error .outOfFuel
  | fuel + 1, id =>
      match store id with
      | none => .error .schemaNotFound
      | some raw =>
          match loadDeps store fuel raw.deps with
          | .error e => .error e
          | .ok refs =>
              if refs.isEmpty then .ok raw.doc
              else .ok (substDoc refs raw.doc)
termination_by fuel _ => (fuel, 0)

/-- The `for sub_stream_id in dependencies` loop of `load_schema`: resolve
each dependency in order, collecting `refs`; a failure propagates. -/
def loadDeps (store : String → Option RawSchema) :
    Nat → List String → Except LoadErr (List (String × SDoc))
  | _, [] => .ok []
  | fuel, d :: ds =>
      match load_schema store fuel d with
      | .error e => .error e
      | .ok doc =>
          match loadDeps store fuel ds with
          | .error e => .error e
          | .ok rest => .ok ((d, doc) :: rest)
termination_by fuel ds => (fuel, ds.length + 1)

end

mutual

/-- Whether a document still contains a reference placeholder. -/
def hasRef : SDoc → Bool
  | .leaf _ => false
  | .ref _ => true
  | .obj cs => propsHaveRef cs

/-- Whether any child document still contains a reference placeholder. -/
def propsHaveRef : SProps → Bool
  | .nil => false
  | .cons _ d rest => hasRef d || propsHaveRef rest

end

/-! ## Metadata derivation (`load_metadata`, lines 50-65) -/

/-- Model of a singer metadata value: a string or a list of strings. -/
inductive MValue where
  | s (v : String)
  | ls (v : List String)
deriving DecidableEq, Repr

/-- Model of the compiled metadata mapping (`metadata.to_list` output): entries
keyed by breadcrumb (field path, `[]` for the stream root) and annotation
name. -/
abbrev MEntry := (List String) × String × MValue

/-- Model of `metadata.write(mdata, breadcrumb, k, v)`: overwrite any existing
annotation at that breadcrumb and name, as a Python nested dict does. -/
def mwrite (md : List MEntry) (bc : List String) (k : String) (v : MValue) :
    List MEntry :=
  md.filter (fun e => !(e.1 == bc && e.2.1 == k)) ++ [(bc, k, v)]

/-- Annotation lookup in compiled metadata. -/
def mlookup (md : List MEntry) (bc : List String) (k : String) :
    Option MValue :=
  (md.find? (fun e => e.1 == bc && e.2.1 == k)).map (·.2.2)

/-- Python truthiness of a stream's `bookmark_key` (`if stream.bookmark_key:`
in the source): `None` and the empty string are falsy. -/
def bkTruthy : Option PyStr → Bool
  | some (.pystr s) => s ≠ ""
  | some .pynone => false
  | none => false

/-- Python equality test `field_name == stream.bookmark_key`: a string equals
the bookmark key only when the key is that same string (comparison with
`None` is `False`). -/
def bkEq (f : String) : Option PyStr → Bool
  | some (.pystr s) => f = s
  | some .pynone => false
  | none => false

/-- Body of the `for field_name in schema['properties'].keys()` loop of
`load_metadata` (lines 59-63): write inclusion `automatic` for key fields and
the bookmark field, `available` otherwise. -/
def inclusionStep (stream : Stream) (md : List MEntry) (field_name : String) :
    List MEntry :=
  if stream.pk_fields.contains field_name || bkEq field_name stream.bookmark_key then
    mwrite md ["properties", field_name] "inclusion" (.s "automatic")
  else
    mwrite md ["properties", field_name] "inclusion" (.s "available")

/-- Root-level writes of `load_metadata` (lines 51-57): `table-key-properties`
and `forced-replication-method` always, `valid-replication-keys` only when
`stream.bookmark_key` is truthy. -/
def rootMD (stream : Stream) : List MEntry :=
  let md : List MEntry := []
  let md := mwrite md [] "table-key-properties" (.ls stream.pk_fields)
  let md := mwrite md [] "forced-replication-method" (.s stream.replication_method)
  if bkTruthy stream.bookmark_key then
    match stream.bookmark_key with
    | some (.pystr bk) => mwrite md [] "valid-replication-keys" (.ls [bk])
    | _ => md
  else md

/-- Shallow embedding of `load_metadata(stream, schema)` (lines 50-65).
`props` is `schema['properties'].keys()` in iteration order.  Root
annotations first (`rootMD`), then per-field inclusion via
`inclusionStep`. -/
def load_metadata (stream : Stream) (props : List String) : List MEntry :=
  props.foldl (inclusionStep stream) (rootMD stream)

/-! ## Secret rotation (`main_impl`, lines 147-159) -/

/-- Model of the external secret store for one secret name: `nextVersion` is
the monotonically increasing version counter (the id the next
`add_secret_version` will be assigned), `live` maps a version id to its
payload when that version exists and is not destroyed. -/
structure SecretStore where
  nextVersion : Int
  live : Int → Option String

/-- Model of `client.add_secret_version`: write the payload as a new version
and return its id (the integer that ends `version.name`). -/
def addSecretVersion (st : SecretStore) (payload : String) :
    Int × SecretStore :=
  (st.nextVersion,
   { nextVersion := st.nextVersion + 1,
     live := fun v => if v = st.nextVersion then some payload else st.live v })

/-- Model of `client.destroy_secret_version`: drop the payload of the named
version. -/
def destroySecretVersion (st : SecretStore) (v : Int) : SecretStore :=
  { nextVersion := st.nextVersion,
    live := fun w => if w = v then none else st.live w }

/-- Errors of the rotation tail.  `destroyFailed` models an exception raised
by the `destroy_secret_version` API call. -/
inductive RotErr where
  | destroyFailed
deriving DecidableEq, Repr

/-- Shallow embedding of the write-back tail of `main_impl` (lines 147-159)
when `GOOGLE_SECRET_MANAGER` is enabled: add the current refresh token as a
new version `N` (whose id the code recovers as
`int(version.name.split('/').pop())`), compute `oldVersionNumber = N - 1`,
and destroy that version.  `destroyFails` is the outcome of the external
destroy call; the code has no exception handler around it, so a failure
propagates out of `main_impl`. -/
def secretWriteBack (st : SecretStore) (token : String)
    (destroyFails : Bool) : Except RotErr (SecretStore × Int) :=
  let (newVersionNumber, st1) := addSecretVersion st token
  let oldVersionNumber := newVersionNumber - 1
  if destroyFails then .error .destroyFailed
  else .ok (destroySecretVersion st1 oldVersionNumber, newVersionNumber)

/-- Model of `main()` around the rotation tail: any exception from
`main_impl` is logged at critical severity and re-raised, so the process
completes successfully exactly when `main_impl` raised nothing. -/
def rotationRunSucceeds (st : SecretStore) (token : String)
    (destroyFails : Bool) : Bool :=
  (secretWriteBack st token destroyFails).isOk

/-! ## Example streams for concrete runs

These mirror the declared order of the testable-properties scenario:
`[bank_transactions, contacts, invoices]`. -/

/-- Example stream descriptor for the `bank_transactions` stream. -/
def bankTransactions : Stream :=
  { tap_stream_id := "bank_transactions",
    pk_fields := ["BankTransactionID"],
    replication_method := "INCREMENTAL",
    bookmark_key := some (.pystr "UpdatedDateUTC") }

/-- Example stream descriptor for the `contacts` stream. -/
def contacts : Stream :=
  { tap_stream_id := "contacts",
    pk_fields := ["ContactID"],
    replication_method := "INCREMENTAL",
    bookmark_key := some (.pystr "UpdatedDateUTC") }

/-- Example stream descriptor for the `invoices` stream. -/
def invoices : Stream :=
  { tap_stream_id := "invoices",
    pk_fields := ["InvoiceID"],
    replication_method := "INCREMENTAL",
    bookmark_key := some (.pystr "UpdatedDateUTC") }

/-- Example declared stream order. -/
def declaredStreams : List Stream := [bankTransactions, contacts, invoices]

/-! ## Helper lemmas about the sync scheduler -/

/-- Successful result of the main loop when the resume index is `i`. -/
def syncBody (all : List Stream) (sel : List String) (i : Nat) : SyncResult :=
  { trace := ((all.drop i).filter (fun s => sel.contains s.tap_stream_id)).flatMap streamBlock
              ++ [.writeState (some .pynone)],
    finalCS := some .pynone }

theorem pyListIndex_of_not_mem (xs : List String) (x : String) (h : x ∉ xs) :
    pyListIndex xs x = .error .valueError := by
  induction xs with
  | nil => rfl
  | cons y ys ih =>
      simp only [List.mem_cons, not_or] at h
      simp [pyListIndex, Ne.symm h.1, ih h.2, Except.map]

theorem pyListIndex_ok_get (xs : List String) (x : String) (i : Nat)
    (h : pyListIndex xs x = .ok i) : xs[i]? = some x := by
  induction xs generalizing i with
  | nil => simp [pyListIndex] at h
  | cons y ys ih =>
      by_cases hy : y = x
      · simp [pyListIndex, hy] at h
        subst h hy
        simp
      · simp only [pyListIndex, if_neg hy] at h
        cases hp : pyListIndex ys x with
        | error e => simp [hp, Except.map] at h
        | ok j =>
            simp [hp, Except.map] at h
            subst h
            simpa using ih j hp

theorem extractIds_flatMap (streams : List Stream) (c : Option PyStr) :
    extractIds (streams.flatMap streamBlock ++ [Ev.writeState c]) =
      streams.map (·.tap_stream_id) := by
  induction streams with
  | nil => rfl
  | cons s ss ih => simpa [streamBlock, extractIds] using ih

theorem syncRun_not_truthy (all : List Stream) (sel : List String)
    (cs0 : Option PyStr) (h : csTruthy (stateGet cs0) = false) :
    syncRun all sel cs0 = .ok (syncBody all sel 0) := by
  simp [syncRun, h, syncBody]

theorem syncRun_resume_ok (all : List Stream) (sel : List String)
    (s : String) (i : Nat) (hne : s ≠ "")
    (h : pyListIndex (allStreamIds all) s = .ok i) :
    syncRun all sel (some (.pystr s)) = .ok (syncBody all sel i) := by
  simp [syncRun, stateGet, csTruthy, hne, h, syncBody]

theorem syncRun_resume_err (all : List Stream) (sel : List String)
    (s : String) (e : SyncErr) (hne : s ≠ "")
    (h : pyListIndex (allStreamIds all) s = .error e) :
    syncRun all sel (some (.pystr s)) = .error e := by
  simp [syncRun, stateGet, csTruthy, hne, h]

theorem extractIds_syncBody (all : List Stream) (sel : List String) (i : Nat) :
    extractIds (syncBody all sel i).trace =
      (((all.drop i).filter (fun s => sel.contains s.tap_stream_id)).map (·.tap_stream_id)) := by
  simp [syncBody, extractIds_flatMap]

theorem syncRun_ok_body (all : List Stream) (sel : List String)
    (cs0 : Option PyStr) (r : SyncResult) (h : syncRun all sel cs0 = .ok r) :
    ∃ i, r = syncBody all sel i := by
  rcases hcs : stateGet cs0 with _ | s
  · have h0 : csTruthy (stateGet cs0) = false := by rw [hcs]; rfl
    rw [syncRun_not_truthy all sel cs0 h0] at h
    exact ⟨0, (Except.ok.inj h).symm⟩
  · by_cases hse : s = ""
    · have h0 : csTruthy (stateGet cs0) = false := by rw [hcs, hse]; rfl
      rw [syncRun_not_truthy all sel cs0 h0] at h
      exact ⟨0, (Except.ok.inj h).symm⟩
    · have hru : syncRun all sel cs0 = syncRun all sel (some (.pystr s)) := by
        cases cs0 with
        | none => simp [stateGet] at hcs
        | some v => rw [show v = .pystr s from hcs]
      rw [hru] at h
      cases hp : pyListIndex (allStreamIds all) s with
      | error e =>
          rw [syncRun_resume_err all sel s e hse hp] at h
          exact absurd h (fun hh => Except.noConfusion hh)
      | ok i =>
          rw [syncRun_resume_ok all sel s i hse hp] at h
          exact ⟨i, (Except.ok.inj h).symm⟩

deriving instance DecidableEq for Except

/-! ## Claim theorems: the sync scheduler -/

/-- C10: when the persisted `currently_syncing` entry is absent, `None`, or
the empty string, `sync` treats the run as a fresh start — no resume-state
error is raised, the resume index is 0, and the working set is the whole
declared order filtered by selection. -/
theorem sync_fresh_start (all : List Stream) (sel : List String)
    (cs0 : Option PyStr)
    (h : cs0 = none ∨ cs0 = some .pynone ∨ cs0 = some (.pystr "")) :
    syncRun all sel cs0 = .ok (syncBody all sel 0) ∧
    extractIds (syncBody all sel 0).trace =
      ((all.filter (fun s => sel.contains s.tap_stream_id)).map (·.tap_stream_id)) := by
  have hf : csTruthy (stateGet cs0) = false := by
    rcases h with h | h | h <;> subst h <;> rfl
  refine ⟨syncRun_not_truthy all sel cs0 hf, ?_⟩
  simpa using extractIds_syncBody all sel 0

/-- C10 witness: a concrete fresh start over the example declared order with
`currently_syncing` absent. -/
theorem sync_fresh_start_witness :
    syncRun declaredStreams ["contacts", "invoices"] none
      = .ok (syncBody declaredStreams ["contacts", "invoices"] 0) ∧
    extractIds (syncBody declaredStreams ["contacts", "invoices"] 0).trace =
      ((declaredStreams.filter
        (fun s => ["contacts", "invoices"].contains s.tap_stream_id)).map (·.tap_stream_id)) :=
  sync_fresh_start declaredStreams ["contacts", "invoices"] none (Or.inl rfl)

/-- C1 counterexample: with the example declared order and the persisted
state `currently_syncing = "nonexistent_stream"`, `sync` fails with the
generic `ValueError` raised by `list.index` — not with an
`InvalidResumeStateError`, a class the source does not define. -/
theorem sync_unknown_resume_error_class_counterexample :
    syncRun declaredStreams ["contacts"] (some (.pystr "nonexistent_stream"))
      = .error .valueError ∧
    (Except.error SyncErr.valueError : Except SyncErr SyncResult)
      ≠ .error .invalidResumeStateError := by
  exact ⟨by decide, by decide⟩

/-- C1 (amended): for every persisted state whose `currently_syncing` holds a
non-empty id that is not in the declared order, `sync` fails fast with the
`ValueError` raised by `list.index` — before emitting any schema and before
invoking any extraction procedure; the error result carries no trace, so no
stream is processed and no checkpoint is written. -/
theorem sync_unknown_resume_fails_fast (all : List Stream) (sel : List String)
    (s : String) (hne : s ≠ "") (hnf : s ∉ allStreamIds all) :
    syncRun all sel (some (.pystr s)) = .error .valueError ∧
    ∀ r : SyncResult, syncRun all sel (some (.pystr s)) ≠ .ok r := by
  have h := syncRun_resume_err all sel s .valueError hne
    (pyListIndex_of_not_mem (allStreamIds all) s hnf)
  exact ⟨h, fun r hr => by rw [h] at hr; exact Except.noConfusion hr⟩

/-- C1 witness: the amended theorem applied at the concrete stale state. -/
theorem sync_unknown_resume_fails_fast_witness :
    syncRun declaredStreams ["contacts"] (some (.pystr "nonexistent_stream"))
      = .error .valueError ∧
    ∀ r : SyncResult,
      syncRun declaredStreams ["contacts"] (some (.pystr "nonexistent_stream")) ≠ .ok r :=
  sync_unknown_resume_fails_fast declaredStreams ["contacts"] "nonexistent_stream"
    (by decide) (by decide)

/-- C6: the execution of `sync` depends only on the membership of the
selected-id set, never on its order or representation — two selections with
the same members produce identical runs — and every successful run processes
a declared-order suffix filtered by selection, so execution order is always
declared order. -/
theorem sync_selection_order_independent (all : List Stream)
    (sel1 sel2 : List String) (cs0 : Option PyStr)
    (h : ∀ x, x ∈ sel1 ↔ x ∈ sel2) :
    syncRun all sel1 cs0 = syncRun all sel2 cs0 ∧
    ∀ r : SyncResult, syncRun all sel1 cs0 = .ok r →
      ∃ i, extractIds r.trace =
        (((all.drop i).filter (fun s => sel1.contains s.tap_stream_id)).map (·.tap_stream_id)) := by
  have hc : (fun s : Stream => sel1.contains s.tap_stream_id)
      = (fun s : Stream => sel2.contains s.tap_stream_id) := by
    funext s
    have := h s.tap_stream_id
    by_cases hx : s.tap_stream_id ∈ sel1
    · simp [hx, this.mp hx]
    · have h2 : s.tap_stream_id ∉ sel2 := fun hy => hx (this.mpr hy)
      simp [hx, h2]
  constructor
  · simp only [syncRun, hc]
  · intro r hr
    rcases syncRun_ok_body all sel1 cs0 r hr with ⟨i, hi⟩
    subst hi
    exact ⟨i, extractIds_syncBody all sel1 i⟩

/-- C6 witness: selecting `[invoices, contacts]` and `[contacts, invoices]`
(the same set, listed in different order) produces identical runs over the
example declared order, and execution is a filtered declared-order suffix. -/
theorem sync_selection_order_independent_witness :
    syncRun declaredStreams ["invoices", "contacts"] none
      = syncRun declaredStreams ["contacts", "invoices"] none ∧
    ∀ r : SyncResult, syncRun declaredStreams ["invoices", "contacts"] none = .ok r →
      ∃ i, extractIds r.trace =
        (((declaredStreams.drop i).filter
          (fun s => ["invoices", "contacts"].contains s.tap_stream_id)).map (·.tap_stream_id)) :=
  sync_selection_order_independent declaredStreams ["invoices", "contacts"]
    ["contacts", "invoices"] none (by intro x; constructor <;> (intro hx; simp at hx ⊢; tauto))

/-- C7: a completed run leaves `currently_syncing` cleared (`None` persisted
as the final state write), and running `sync` again on that cleared state
starts at position 0 of the declared order, processing every selected
stream. -/
theorem sync_completion_clears_then_restarts (all : List Stream)
    (sel : List String) (cs0 : Option PyStr) (r : SyncResult)
    (h : syncRun all sel cs0 = .ok r) :
    r.finalCS = some .pynone ∧
    r.trace.getLast? = some (.writeState (some .pynone)) ∧
    syncRun all sel r.finalCS = .ok (syncBody all sel 0) ∧
    extractIds (syncBody all sel 0).trace =
      ((all.filter (fun s => sel.contains s.tap_stream_id)).map (·.tap_stream_id)) := by
  rcases syncRun_ok_body all sel cs0 r h with ⟨i, hi⟩
  subst hi
  refine ⟨rfl, ?_, ?_, ?_⟩
  · simp [syncBody]
  · exact syncRun_not_truthy all sel (some .pynone) rfl
  · simpa using extractIds_syncBody all sel 0

/-- C7 witness: the theorem applied to a concrete completed run. -/
theorem sync_completion_clears_then_restarts_witness :
    (syncBody declaredStreams ["contacts", "invoices"] 1).finalCS = some .pynone ∧
    (syncBody declaredStreams ["contacts", "invoices"] 1).trace.getLast?
      = some (.writeState (some .pynone)) ∧
    syncRun declaredStreams ["contacts", "invoices"]
        (syncBody declaredStreams ["contacts", "invoices"] 1).finalCS
      = .ok (syncBody declaredStreams ["contacts", "invoices"] 0) ∧
    extractIds (syncBody declaredStreams ["contacts", "invoices"] 0).trace =
      ((declaredStreams.filter
        (fun s => ["contacts", "invoices"].contains s.tap_stream_id)).map (·.tap_stream_id)) :=
  sync_completion_clears_then_restarts declaredStreams ["contacts", "invoices"]
    (some (.pystr "contacts")) (syncBody declaredStreams ["contacts", "invoices"] 1)
    (by decide)

/-- C2: with `currently_syncing = streamK` for a known id `k` whose first
declared position is `i`, `sync` processes exactly the declared-order streams
from position `i` (inclusive) onward that are selected; with distinct stream
ids, no stream strictly before position `i` is processed, even when
selected. -/
theorem sync_resume_mid (all : List Stream) (sel : List String) (k : String)
    (i : Nat) (hne : k ≠ "") (hk : pyListIndex (allStreamIds all) k = .ok i)
    (hnd : (allStreamIds all).Nodup) :
    (allStreamIds all)[i]? = some k ∧
    ∃ r, syncRun all sel (some (.pystr k)) = .ok r ∧
      extractIds r.trace =
        (((all.drop i).filter (fun s => sel.contains s.tap_stream_id)).map (·.tap_stream_id)) ∧
      ∀ j s, j < i → all[j]? = some s → s.tap_stream_id ∉ extractIds r.trace := by
  refine ⟨pyListIndex_ok_get (allStreamIds all) k i hk, syncBody all sel i,
    syncRun_resume_ok all sel k i hne hk, extractIds_syncBody all sel i, ?_⟩
  intro j s hj hjs hmem
  rw [extractIds_syncBody all sel i] at hmem
  have hmem2 : s.tap_stream_id ∈ (all.drop i).map (·.tap_stream_id) := by
    rcases List.mem_map.mp hmem with ⟨a, ha, hax⟩
    exact List.mem_map.mpr ⟨a, (List.mem_filter.mp ha).1, hax⟩
  rw [List.map_drop] at hmem2
  rcases List.mem_iff_getElem?.mp hmem2 with ⟨m, hm⟩
  rw [List.getElem?_drop] at hm
  have hjid : (allStreamIds all)[j]? = some s.tap_stream_id := by
    unfold allStreamIds
    rw [List.getElem?_map, hjs]
    rfl
  have hjlen : j < (allStreamIds all).length := by
    by_contra hge
    rw [List.getElem?_eq_none (Nat.le_of_not_lt hge)] at hjid
    exact Option.noConfusion hjid
  have hm2 : (allStreamIds all)[i + m]? = some s.tap_stream_id := hm
  have heq : j = i + m := List.getElem?_inj hjlen hnd (by rw [hjid, hm2])
  omega

/-- C2 witness: resuming the example declared order at `currently_syncing =
"invoices"` (declared position 2) with `contacts` and `invoices` selected
runs only `invoices`; `contacts` (declared position 1) is not processed. -/
theorem sync_resume_mid_witness :
    (allStreamIds declaredStreams)[2]? = some "invoices" ∧
    ∃ r, syncRun declaredStreams ["contacts", "invoices"] (some (.pystr "invoices")) = .ok r ∧
      extractIds r.trace =
        (((declaredStreams.drop 2).filter
          (fun s => ["contacts", "invoices"].contains s.tap_stream_id)).map (·.tap_stream_id)) ∧
      ∀ j s, j < 2 → declaredStreams[j]? = some s →
        s.tap_stream_id ∉ extractIds r.trace :=
  sync_resume_mid declaredStreams ["contacts", "invoices"] "invoices" 2
    (by decide) (by decide) (by decide)

/-- Ordering invariant of the main-loop trace: every schema emission is
immediately preceded by the persisted checkpoint of the same stream id, and
every extraction invocation is immediately preceded by that stream's schema
emission. -/
theorem trace_order (streams : List Stream) (c : Option PyStr) :
    (∀ n x, (streams.flatMap streamBlock ++ [Ev.writeState c])[n]? = some (.schema x) →
       ∃ m, n = m + 1 ∧
         (streams.flatMap streamBlock ++ [Ev.writeState c])[m]?
           = some (.writeState (some (.pystr x)))) ∧
    (∀ n x, (streams.flatMap streamBlock ++ [Ev.writeState c])[n]? = some (.extract x) →
       ∃ m, n = m + 1 ∧
         (streams.flatMap streamBlock ++ [Ev.writeState c])[m]? = some (.schema x)) := by
  induction streams with
  | nil =>
      constructor <;> intro n x h <;>
        match n with
        | 0 => simp at h
        | n + 1 => simp at h
  | cons s ss ih =>
      have hexp : (s :: ss).flatMap streamBlock ++ [Ev.writeState c] =
          Ev.writeState (some (.pystr s.tap_stream_id)) :: Ev.schema s.tap_stream_id ::
            Ev.extract s.tap_stream_id :: (ss.flatMap streamBlock ++ [Ev.writeState c]) := by
        simp [streamBlock]
      rw [hexp]
      constructor <;> intro n x h
      · match n with
        | 0 => simp at h
        | 1 =>
            simp at h
            exact ⟨0, rfl, by simp [h]⟩
        | 2 => simp at h
        | n + 3 =>
            simp only [List.getElem?_cons_succ] at h
            rcases ih.1 n x h with ⟨m, hm, hv⟩
            exact ⟨m + 3, by omega, by simpa using hv⟩
      · match n with
        | 0 => simp at h
        | 1 => simp at h
        | 2 =>
            simp at h
            exact ⟨1, rfl, by simp [h]⟩
        | n + 3 =>
            simp only [List.getElem?_cons_succ] at h
            rcases ih.2 n x h with ⟨m, hm, hv⟩
            exact ⟨m + 3, by omega, by simpa using hv⟩

/-- C8: in every successful run, each schema emission is immediately preceded
by the persisted checkpoint (`currently_syncing = stream.id` written to
state) for that same stream, and each extraction invocation is immediately
preceded by that stream's schema emission — so a schema is never emitted
before its checkpoint is persisted and extraction is never invoked before
its schema is emitted. -/
theorem sync_per_stream_ordering (all : List Stream) (sel : List String)
    (cs0 : Option PyStr) (r : SyncResult) (h : syncRun all sel cs0 = .ok r) :
    (∀ n x, r.trace[n]? = some (.schema x) →
       ∃ m, n = m + 1 ∧ r.trace[m]? = some (.writeState (some (.pystr x)))) ∧
    (∀ n x, r.trace[n]? = some (.extract x) →
       ∃ m, n = m + 1 ∧ r.trace[m]? = some (.schema x)) := by
  rcases syncRun_ok_body all sel cs0 r h with ⟨i, hi⟩
  subst hi
  exact trace_order ((all.drop i).filter (fun s => sel.contains s.tap_stream_id)) (some .pynone)

/-- C8 witness: the ordering invariant on a concrete fresh run over the
example declared order. -/
theorem sync_per_stream_ordering_witness :
    (∀ n x, (syncBody declaredStreams ["contacts"] 0).trace[n]? = some (.schema x) →
       ∃ m, n = m + 1 ∧
         (syncBody declaredStreams ["contacts"] 0).trace[m]?
           = some (.writeState (some (.pystr x)))) ∧
    (∀ n x, (syncBody declaredStreams ["contacts"] 0).trace[n]? = some (.extract x) →
       ∃ m, n = m + 1 ∧
         (syncBody declaredStreams ["contacts"] 0).trace[m]? = some (.schema x)) :=
  sync_per_stream_ordering declaredStreams ["contacts"] none
    (syncBody declaredStreams ["contacts"] 0) (by decide)

/-! ## Claim theorems: secret rotation -/

/-- Example secret store holding versions 1-4, with version 5 next. -/
def exampleSecretStore : SecretStore :=
  { nextVersion := 5,
    live := fun v => if 1 ≤ v ∧ v ≤ 4 then some "old-token" else none }

/-- C4 counterexample: with rotation enabled and the new secret version
written successfully, a failing destroy of the previous version makes the
whole run fail — `main_impl` has no handler around
`destroy_secret_version`, so the exception propagates and the process does
not complete successfully, contrary to the claim that it is logged and
swallowed. -/
theorem rotation_destroy_failure_counterexample :
    rotationRunSucceeds exampleSecretStore "new-token" true = false ∧
    secretWriteBack exampleSecretStore "new-token" true = .error .destroyFailed := by
  exact ⟨rfl, rfl⟩

/-- C4 (amended): a failure of the destroy of the previous secret version
after a successful write is fatal: the exception propagates out of
`main_impl` (to be logged at critical severity and re-raised by `main`), and
the process completes successfully only when the destroy succeeds — the
failure is not swallowed. -/
theorem rotation_destroy_failure_is_fatal (st : SecretStore) (token : String) :
    secretWriteBack st token true = .error .destroyFailed ∧
    rotationRunSucceeds st token true = false ∧
    rotationRunSucceeds st token false = true := by
  exact ⟨rfl, rfl, rfl⟩

/-- C9: a successful rotation writes the token as the new version `N`
(the store's next version id), destroys exactly version `N - 1`, and leaves
every other version untouched. -/
theorem rotation_destroys_exactly_previous (st : SecretStore) (token : String) :
    ∃ st2 N, secretWriteBack st token false = .ok (st2, N) ∧
      N = st.nextVersion ∧
      st2.nextVersion = N + 1 ∧
      st2.live N = some token ∧
      st2.live (N - 1) = none ∧
      ∀ v, v ≠ N → v ≠ N - 1 → st2.live v = st.live v := by
  refine ⟨_, _, rfl, rfl, rfl, ?_, ?_, ?_⟩
  · have hne : st.nextVersion ≠ st.nextVersion - 1 := by omega
    simp [secretWriteBack, addSecretVersion, destroySecretVersion, hne]
  · simp [secretWriteBack, addSecretVersion, destroySecretVersion]
  · intro v hvN hvprev
    simp [secretWriteBack, addSecretVersion, destroySecretVersion, hvN, hvprev]

/-! ## Claim theorems: metadata derivation -/

theorem mlookup_mwrite_same (md : List MEntry) (bc : List String) (k : String)
    (v : MValue) : mlookup (mwrite md bc k v) bc k = some v := by
  have hnone : (md.filter (fun e => !(e.1 == bc && e.2.1 == k))).find?
      (fun e => e.1 == bc && e.2.1 == k) = none := by
    rw [List.find?_eq_none]
    intro x hx
    have := (List.mem_filter.mp hx).2
    simp only [Bool.not_eq_true'] at this
    simp [this]
  have hone : ([((bc, k, v) : MEntry)]).find?
      (fun e => e.1 == bc && e.2.1 == k) = some (bc, k, v) := by
    simp [List.find?_cons]
  unfold mlookup mwrite
  rw [List.find?_append, hnone, Option.none_or, hone]
  rfl

theorem find?_filter_of_imp (md : List MEntry) (p q : MEntry → Bool)
    (h : ∀ e, p e = true → q e = true) :
    (md.filter q).find? p = md.find? p := by
  induction md with
  | nil => rfl
  | cons e es ih =>
      by_cases hp : p e
      · have hq : q e = true := h e hp
        simp [List.filter_cons, hq, List.find?_cons, hp]
      · have hp2 : p e = false := Bool.not_eq_true _ ▸ hp
        by_cases hq : q e = true
        · simp [List.filter_cons, hq, List.find?_cons, hp2, ih]
        · have hq2 : q e = false := Bool.not_eq_true _ ▸ hq
          simp [List.filter_cons, hq2, List.find?_cons, hp2, ih]

theorem mlookup_mwrite_other (md : List MEntry) (bc bc2 : List String)
    (k k2 : String) (v : MValue) (h : bc ≠ bc2 ∨ k ≠ k2) :
    mlookup (mwrite md bc2 k2 v) bc k = mlookup md bc k := by
  have hfilter : (md.filter (fun e => !(e.1 == bc2 && e.2.1 == k2))).find?
      (fun e => e.1 == bc && e.2.1 == k) =
      md.find? (fun e => e.1 == bc && e.2.1 == k) := by
    refine find?_filter_of_imp md _ _ ?_
    intro e he
    simp only [Bool.and_eq_true, beq_iff_eq] at he
    rcases h with h | h
    · have hne : e.1 ≠ bc2 := by rw [he.1]; exact h
      simp [hne]
    · have hne : e.2.1 ≠ k2 := by rw [he.2]; exact h
      simp [hne]
  have hlast : ([((bc2, k2, v) : MEntry)]).find?
      (fun e => e.1 == bc && e.2.1 == k) = none := by
    rcases h with h | h <;> simp [List.find?_cons, Ne.symm h]
  unfold mlookup mwrite
  rw [List.find?_append, hfilter, hlast, Option.or_none]

theorem mlookup_inclusionStep_same (stream : Stream) (md : List MEntry)
    (f : String) :
    mlookup (inclusionStep stream md f) ["properties", f] "inclusion" =
      some (.s (if stream.pk_fields.contains f || bkEq f stream.bookmark_key
                then "automatic" else "available")) := by
  unfold inclusionStep
  by_cases h : (stream.pk_fields.contains f || bkEq f stream.bookmark_key) = true
  · rw [if_pos h, if_pos h, mlookup_mwrite_same]
  · rw [if_neg h, if_neg h, mlookup_mwrite_same]

theorem mlookup_inclusionStep_other (stream : Stream) (md : List MEntry)
    (f g : String) (h : g ≠ f) :
    mlookup (inclusionStep stream md f) ["properties", g] "inclusion" =
      mlookup md ["properties", g] "inclusion" := by
  have hbc : (["properties", g] : List String) ≠ ["properties", f] := by
    simp [h]
  unfold inclusionStep
  by_cases hb : (stream.pk_fields.contains f || bkEq f stream.bookmark_key) = true
  · rw [if_pos hb, mlookup_mwrite_other _ _ _ _ _ _ (Or.inl hbc)]
  · rw [if_neg hb, mlookup_mwrite_other _ _ _ _ _ _ (Or.inl hbc)]

theorem mlookup_inclusionStep_root (stream : Stream) (md : List MEntry)
    (f : String) (k : String) :
    mlookup (inclusionStep stream md f) [] k = mlookup md [] k := by
  have hbc : ([] : List String) ≠ ["properties", f] := by simp
  unfold inclusionStep
  by_cases hb : (stream.pk_fields.contains f || bkEq f stream.bookmark_key) = true
  · rw [if_pos hb, mlookup_mwrite_other _ _ _ _ _ _ (Or.inl hbc)]
  · rw [if_neg hb, mlookup_mwrite_other _ _ _ _ _ _ (Or.inl hbc)]

theorem mlookup_fold_root (stream : Stream) (props : List String)
    (md : List MEntry) (k : String) :
    mlookup (props.foldl (inclusionStep stream) md) [] k = mlookup md [] k := by
  induction props generalizing md with
  | nil => rfl
  | cons f fs ih => rw [List.foldl_cons, ih, mlookup_inclusionStep_root]

theorem mlookup_fold_field (stream : Stream) (props : List String)
    (md : List MEntry) (f : String) :
    mlookup (props.foldl (inclusionStep stream) md) ["properties", f] "inclusion" =
      if props.contains f then
        some (.s (if stream.pk_fields.contains f || bkEq f stream.bookmark_key
                  then "automatic" else "available"))
      else mlookup md ["properties", f] "inclusion" := by
  induction props generalizing md with
  | nil => simp [List.contains_nil]
  | cons p ps ih =>
      rw [List.foldl_cons, ih]
      by_cases hpf : p = f
      · subst hpf
        have hc2 : (p :: ps).contains p = true := by simp [List.contains_cons]
        by_cases hcon : ps.contains p
        · rw [if_pos hcon, if_pos hc2]
        · rw [if_neg hcon, mlookup_inclusionStep_same, if_pos hc2]
      · by_cases hcon : ps.contains f
        · have hc2 : (p :: ps).contains f = true := by
            simp only [List.contains_cons, Bool.or_eq_true, beq_iff_eq]
            exact Or.inr hcon
          rw [if_pos hcon, if_pos hc2]
        · have hfp : ¬ f = p := Ne.symm hpf
          rw [if_neg hcon, mlookup_inclusionStep_other stream md p f hfp]
          have hnotc : ¬ (p :: ps).contains f = true := by
            simp only [List.contains_cons, Bool.or_eq_true, beq_iff_eq]
            rintro (hh | hh)
            · exact hfp hh
            · exact hcon hh
          rw [if_neg hnotc]

theorem bkEq_iff (f : String) (bk : Option PyStr) :
    bkEq f bk = true ↔ bk = some (.pystr f) := by
  rcases bk with _ | v
  · simp [bkEq]
  · rcases v with _ | s
    · simp [bkEq]
    · simp only [bkEq, decide_eq_true_eq, Option.some.injEq, PyStr.pystr.injEq]
      exact comm

theorem rootMD_tkp (stream : Stream) :
    mlookup (rootMD stream) [] "table-key-properties"
      = some (.ls stream.pk_fields) := by
  have h2 := mlookup_mwrite_other
    (mwrite ([] : List MEntry) [] "table-key-properties" (.ls stream.pk_fields))
    [] [] "table-key-properties" "forced-replication-method"
    (.s stream.replication_method) (Or.inr (by decide))
  unfold rootMD
  rcases hb : stream.bookmark_key with _ | v
  · simp only [hb, bkTruthy, ite_self]
    rw [h2, mlookup_mwrite_same]
  · rcases v with _ | s
    · simp only [hb, bkTruthy, ite_self]
      rw [h2, mlookup_mwrite_same]
    · by_cases hs : s = ""
      · subst hs
        simp only [hb, bkTruthy]
        rw [if_neg (by simp)]
        rw [h2, mlookup_mwrite_same]
      · simp only [hb, bkTruthy]
        rw [if_pos (by simp [hs])]
        rw [mlookup_mwrite_other _ _ _ _ _ _ (Or.inr (by decide)),
          h2, mlookup_mwrite_same]

theorem rootMD_frm (stream : Stream) :
    mlookup (rootMD stream) [] "forced-replication-method"
      = some (.s stream.replication_method) := by
  unfold rootMD
  rcases hb : stream.bookmark_key with _ | v
  · simp only [hb, bkTruthy, ite_self]
    rw [mlookup_mwrite_same]
  · rcases v with _ | s
    · simp only [hb, bkTruthy, ite_self]
      rw [mlookup_mwrite_same]
    · by_cases hs : s = ""
      · subst hs
        simp only [hb, bkTruthy]
        rw [if_neg (by simp)]
        rw [mlookup_mwrite_same]
      · simp only [hb, bkTruthy]
        rw [if_pos (by simp [hs])]
        rw [mlookup_mwrite_other _ _ _ _ _ _ (Or.inr (by decide)),
          mlookup_mwrite_same]

theorem rootMD_vrk (stream : Stream)
    (hbk : stream.bookmark_key ≠ some (.pystr "")) :
    mlookup (rootMD stream) [] "valid-replication-keys"
      = (match stream.bookmark_key with
         | some (.pystr bk) => some (.ls [bk])
         | _ => none) := by
  have h2 : ∀ md : List MEntry,
      mlookup (mwrite (mwrite md [] "table-key-properties" (.ls stream.pk_fields))
        [] "forced-replication-method" (.s stream.replication_method))
        [] "valid-replication-keys" = mlookup md [] "valid-replication-keys" := by
    intro md
    rw [mlookup_mwrite_other _ _ _ _ _ _ (Or.inr (by decide)),
      mlookup_mwrite_other _ _ _ _ _ _ (Or.inr (by decide))]
  unfold rootMD
  rcases hb : stream.bookmark_key with _ | v
  · simp only [hb, bkTruthy, ite_self]
    rw [h2]
    rfl
  · rcases v with _ | s
    · simp only [hb, bkTruthy, ite_self]
      rw [h2]
      rfl
    · have hs : s ≠ "" := fun hh => hbk (by rw [hb, hh])
      simp only [hb, bkTruthy]
      rw [if_pos (by simp [hs]), mlookup_mwrite_same]

/-- C5: for every stream descriptor (whose bookmark key, when present, is
non-empty) and every resolved schema, the built metadata satisfies: a field's
inclusion is `automatic` iff the field is a key field or equals the bookmark
key, and otherwise `available`; the root carries `table-key-properties =
pk_fields` and `forced-replication-method = replication_method`; and
`valid-replication-keys = [bookmark_key]` is present at the root iff the
bookmark key is set. -/
theorem load_metadata_invariants (stream : Stream) (props : List String)
    (hbk : stream.bookmark_key ≠ some (.pystr "")) :
    (∀ f ∈ props,
      (mlookup (load_metadata stream props) ["properties", f] "inclusion"
          = some (.s "automatic")
        ↔ (f ∈ stream.pk_fields ∨ stream.bookmark_key = some (.pystr f))) ∧
      (mlookup (load_metadata stream props) ["properties", f] "inclusion"
          = some (.s "automatic") ∨
       mlookup (load_metadata stream props) ["properties", f] "inclusion"
          = some (.s "available"))) ∧
    mlookup (load_metadata stream props) [] "table-key-properties"
      = some (.ls stream.pk_fields) ∧
    mlookup (load_metadata stream props) [] "forced-replication-method"
      = some (.s stream.replication_method) ∧
    mlookup (load_metadata stream props) [] "valid-replication-keys"
      = (match stream.bookmark_key with
         | some (.pystr bk) => some (.ls [bk])
         | _ => none) := by
  refine ⟨?_, ?_, ?_, ?_⟩
  · intro f hf
    have hc : props.contains f = true := List.elem_iff.mpr hf
    have hlm : mlookup (load_metadata stream props) ["properties", f] "inclusion"
        = some (.s (if (stream.pk_fields.contains f || bkEq f stream.bookmark_key) = true
                    then "automatic" else "available")) := by
      unfold load_metadata
      rw [mlookup_fold_field, if_pos hc]
    by_cases hcond : (stream.pk_fields.contains f || bkEq f stream.bookmark_key) = true
    · rw [hlm, if_pos hcond]
      rcases Bool.or_eq_true _ _ |>.mp hcond with hh | hh
      · exact ⟨iff_of_true rfl (Or.inl (List.elem_iff.mp hh)), Or.inl rfl⟩
      · exact ⟨iff_of_true rfl (Or.inr ((bkEq_iff f stream.bookmark_key).mp hh)), Or.inl rfl⟩
    · rw [hlm, if_neg hcond]
      simp only [Bool.or_eq_true, not_or] at hcond
      refine ⟨iff_of_false (by simp) ?_, Or.inr rfl⟩
      rintro (hh | hh)
      · exact hcond.1 (List.elem_iff.mpr hh)
      · exact hcond.2 ((bkEq_iff f stream.bookmark_key).mpr hh)
  · unfold load_metadata
    rw [mlookup_fold_root, rootMD_tkp]
  · unfold load_metadata
    rw [mlookup_fold_root, rootMD_frm]
  · unfold load_metadata
    rw [mlookup_fold_root, rootMD_vrk stream hbk]

/-- C5 witness: the invariants on the concrete `contacts` descriptor with a
three-field schema. -/
theorem load_metadata_invariants_witness :
    (∀ f ∈ ["ContactID", "Name", "UpdatedDateUTC"],
      (mlookup (load_metadata contacts ["ContactID", "Name", "UpdatedDateUTC"])
          ["properties", f] "inclusion" = some (.s "automatic")
        ↔ (f ∈ contacts.pk_fields ∨ contacts.bookmark_key = some (.pystr f))) ∧
      (mlookup (load_metadata contacts ["ContactID", "Name", "UpdatedDateUTC"])
          ["properties", f] "inclusion" = some (.s "automatic") ∨
       mlookup (load_metadata contacts ["ContactID", "Name", "UpdatedDateUTC"])
          ["properties", f] "inclusion" = some (.s "available"))) ∧
    mlookup (load_metadata contacts ["ContactID", "Name", "UpdatedDateUTC"])
      [] "table-key-properties" = some (.ls contacts.pk_fields) ∧
    mlookup (load_metadata contacts ["ContactID", "Name", "UpdatedDateUTC"])
      [] "forced-replication-method" = some (.s contacts.replication_method) ∧
    mlookup (load_metadata contacts ["ContactID", "Name", "UpdatedDateUTC"])
      [] "valid-replication-keys"
      = (match contacts.bookmark_key with
         | some (.pystr bk) => some (.ls [bk])
         | _ => none) :=
  load_metadata_invariants contacts ["ContactID", "Name", "UpdatedDateUTC"]
    (by decide)

/-! ## Claim theorems: schema resolution -/

mutual

/-- Ids of the reference placeholders occurring in a document. -/
def refsIn : SDoc → List String
  | .leaf _ => []
  | .ref id => [id]
  | .obj cs => refsInProps cs

/-- Ids of the reference placeholders occurring in a children list. -/
def refsInProps : SProps → List String
  | .nil => []
  | .cons _ d rest => refsIn d ++ refsInProps rest

end

/-- A schema store is well formed when every reference placeholder of a
stored document names one of that document's declared dependencies. -/
def storeWellFormed (store : String → Option RawSchema) : Prop :=
  ∀ id raw, store id = some raw → ∀ r ∈ refsIn raw.doc, r ∈ raw.deps

theorem lookup_mem (refs : List (String × SDoc)) (id : String) (v : SDoc)
    (h : refs.lookup id = some v) : (id, v) ∈ refs := by
  induction refs with
  | nil => simp [List.lookup] at h
  | cons p ps ih =>
      rcases p with ⟨k, w⟩
      by_cases hk : id = k
      · subst hk
        simp [List.lookup] at h
        subst h
        exact List.mem_cons_self _ _
      · have hbeq : (id == k) = false := by simp [hk]
        simp only [List.lookup, hbeq] at h
        exact List.mem_cons_of_mem _ (ih h)

theorem lookup_isSome_of_mem_keys (refs : List (String × SDoc)) (r : String)
    (h : r ∈ refs.map Prod.fst) : (refs.lookup r).isSome = true := by
  induction refs with
  | nil => simp at h
  | cons p ps ih =>
      rcases p with ⟨k, w⟩
      by_cases hk : r = k
      · subst hk
        simp [List.lookup]
      · have hbeq : (r == k) = false := by simp [hk]
        simp only [List.map_cons, List.mem_cons] at h
        rcases h with h | h
        · exact absurd h hk
        · simp only [List.lookup, hbeq]
          exact ih h

mutual

theorem substDoc_noRef (refs : List (String × SDoc))
    (hv : ∀ p ∈ refs, hasRef p.2 = false) :
    (d : SDoc) → (∀ r ∈ refsIn d, (refs.lookup r).isSome = true) →
    hasRef (substDoc refs d) = false
  | .leaf s, _ => by simp [substDoc, hasRef]
  | .ref id, h => by
      have hs : (refs.lookup id).isSome = true := h id (by simp [refsIn])
      cases hl : refs.lookup id with
      | none => rw [hl] at hs; exact Bool.noConfusion hs
      | some v =>
          simp only [substDoc, hl]
          exact hv (id, v) (lookup_mem refs id v hl)
  | .obj cs, h => by
      simp only [substDoc, hasRef]
      exact substProps_noRef refs hv cs (fun r hr => h r hr)

theorem substProps_noRef (refs : List (String × SDoc))
    (hv : ∀ p ∈ refs, hasRef p.2 = false) :
    (ps : SProps) → (∀ r ∈ refsInProps ps, (refs.lookup r).isSome = true) →
    propsHaveRef (substProps refs ps) = false
  | .nil, _ => rfl
  | .cons k d rest, h => by
      simp only [substProps, propsHaveRef, Bool.or_eq_false_iff]
      refine ⟨substDoc_noRef refs hv d (fun r hr => h r ?_),
        substProps_noRef refs hv rest (fun r hr => h r ?_)⟩
      · exact List.mem_append.mpr (Or.inl hr)
      · exact List.mem_append.mpr (Or.inr hr)

end

mutual

theorem substDoc_nil : (d : SDoc) → substDoc [] d = d
  | .leaf _ => rfl
  | .ref _ => rfl
  | .obj cs => by
      simp only [substDoc]
      rw [substProps_nil cs]

theorem substProps_nil : (ps : SProps) → substProps [] ps = ps
  | .nil => rfl
  | .cons k d rest => by
      simp only [substProps]
      rw [substDoc_nil d, substProps_nil rest]

end

theorem loadDeps_keys (store : String → Option RawSchema) (fuel : Nat) :
    (ds : List String) → (refs : List (String × SDoc)) →
    loadDeps store fuel ds = .ok refs → refs.map Prod.fst = ds
  | [], refs, h => by
      simp only [loadDeps] at h
      rw [← Except.ok.inj h]
      rfl
  | d :: ds, refs, h => by
      simp only [loadDeps] at h
      cases h1 : load_schema store fuel d with
      | error e => rw [h1] at h; exact Except.noConfusion h
      | ok doc =>
          rw [h1] at h
          cases h2 : loadDeps store fuel ds with
          | error e => rw [h2] at h; exact Except.noConfusion h
          | ok rest =>
              rw [h2] at h
              rw [← Except.ok.inj h]
              simp [loadDeps_keys store fuel ds rest h2]

theorem loadDeps_vals (store : String → Option RawSchema) (fuel : Nat)
    (hS : ∀ id doc, load_schema store fuel id = .ok doc → hasRef doc = false) :
    (ds : List String) → (refs : List (String × SDoc)) →
    loadDeps store fuel ds = .ok refs → ∀ p ∈ refs, hasRef p.2 = false
  | [], refs, h => by
      simp only [loadDeps] at h
      rw [← Except.ok.inj h]
      intro p hp
      simp at hp
  | d :: ds, refs, h => by
      simp only [loadDeps] at h
      cases h1 : load_schema store fuel d with
      | error e => rw [h1] at h; exact Except.noConfusion h
      | ok doc =>
          rw [h1] at h
          cases h2 : loadDeps store fuel ds with
          | error e => rw [h2] at h; exact Except.noConfusion h
          | ok rest =>
              rw [h2] at h
              rw [← Except.ok.inj h]
              intro p hp
              rcases List.mem_cons.mp hp with hp | hp
              · rw [hp]
                exact hS d doc h1
              · exact loadDeps_vals store fuel hS ds rest h2 p hp

theorem load_schema_noRef (store : String → Option RawSchema)
    (hW : storeWellFormed store) :
    ∀ fuel id doc, load_schema store fuel id = .ok doc → hasRef doc = false := by
  intro fuel
  induction fuel with
  | zero =>
      intro id doc h
      simp [load_schema] at h
  | succ fuel ih =>
      intro id doc h
      simp only [load_schema] at h
      cases hst : store id with
      | none => rw [hst] at h; exact Except.noConfusion h
      | some raw =>
          rw [hst] at h
          simp only [] at h
          cases hld : loadDeps store fuel raw.deps with
          | error e => rw [hld] at h; exact Except.noConfusion h
          | ok refs =>
              rw [hld] at h
              simp only [] at h
              have hkeys := loadDeps_keys store fuel raw.deps refs hld
              have hvals := loadDeps_vals store fuel ih raw.deps refs hld
              by_cases hemp : refs.isEmpty
              · rw [if_pos hemp] at h
                have hdeps : raw.deps = [] := by
                  rw [← hkeys]
                  rcases refs with _ | _
                  · rfl
                  · simp [List.isEmpty] at hemp
                have hsub : hasRef (substDoc [] raw.doc) = false := by
                  refine substDoc_noRef [] (by simp) raw.doc ?_
                  intro r hr
                  have : r ∈ raw.deps := hW id raw hst r hr
                  rw [hdeps] at this
                  simp at this
                rw [substDoc_nil raw.doc] at hsub
                rw [← Except.ok.inj h]
                exact hsub
              · rw [if_neg hemp] at h
                rw [← Except.ok.inj h]
                refine substDoc_noRef refs hvals raw.doc ?_
                intro r hr
                have hrd : r ∈ raw.deps := hW id raw hst r hr
                rw [← hkeys] at hrd
                exact lookup_isSome_of_mem_keys refs r hrd

/-- Deliberately cyclic schema store: stream `a` declares itself as its own
dependency. -/
def cyclicStore : String → Option RawSchema :=
  fun id => if id = "a" then some { deps := ["a"], doc := .ref "a" } else none

theorem cyclic_outOfFuel :
    ∀ fuel, load_schema cyclicStore fuel "a" = .error .outOfFuel := by
  intro fuel
  induction fuel with
  | zero => simp [load_schema]
  | succ fuel ih => simp [load_schema, loadDeps, cyclicStore, ih]

/-- Proposition that resolving the cyclic example ever settles: at some
recursion budget it either raises the spec-named `SchemaCycleError` or
returns a resolved document. -/
def cyclicResolutionSettles : Prop :=
  ∃ fuel, load_schema cyclicStore fuel "a" = .error .schemaCycleError ∨
    ∃ doc, load_schema cyclicStore fuel "a" = .ok doc

/-- C3 counterexample: on the concrete cyclic dependency graph (`a` depends
on `a`), `load_schema` never fails with `SchemaCycleError` and never returns:
at every recursion budget it only exhausts the budget, i.e. the Python
recursion does not terminate — there is no cycle detection in the code. -/
theorem load_schema_cycle_counterexample : ¬ cyclicResolutionSettles := by
  rintro ⟨fuel, h | ⟨doc, h⟩⟩ <;> rw [cyclic_outOfFuel fuel] at h
  · exact LoadErr.noConfusion (Except.error.inj h)
  · exact Except.noConfusion h

/-- C3 (amended): over any well-formed store, whenever `load_schema` returns
a document, that document has zero unresolved dependency references; but on
a cyclic dependency graph the recursion never terminates (every recursion
budget is exhausted) instead of failing with a `SchemaCycleError`, which the
source does not implement. -/
theorem load_schema_resolution (store : String → Option RawSchema)
    (hW : storeWellFormed store) :
    (∀ fuel id doc, load_schema store fuel id = .ok doc → hasRef doc = false) ∧
    (∀ fuel, load_schema cyclicStore fuel "a" = .error .outOfFuel) :=
  ⟨load_schema_noRef store hW, cyclic_outOfFuel⟩

/-- Example acyclic schema store: `b` depends on `c`; `c` has no
dependencies. -/
def exampleSchemaStore : String → Option RawSchema :=
  fun id =>
    if id = "b" then
      some { deps := ["c"], doc := .obj (.cons "Contact" (.ref "c") .nil) }
    else if id = "c" then
      some { deps := [], doc := .leaf "c-body" }
    else none

/-- C3 witness: the amended theorem applied to the concrete acyclic example
store — resolving `b` at budget 2 inlines `c` and the result carries no
reference placeholder — and to the cyclic example at budget 7. -/
theorem load_schema_resolution_witness :
    hasRef (SDoc.obj (.cons "Contact" (.leaf "c-body") .nil)) = false ∧
    load_schema cyclicStore 7 "a" = .error .outOfFuel := by
  have hwf : storeWellFormed exampleSchemaStore := by
    intro id raw h r hr
    unfold exampleSchemaStore at h
    by_cases h1 : id = "b"
    · rw [if_pos h1] at h
      rw [← Option.some.injEq] at h
      cases Option.some.inj h
      simpa [refsIn, refsInProps] using hr
    · rw [if_neg h1] at h
      by_cases h2 : id = "c"
      · rw [if_pos h2] at h
        cases Option.some.inj h
        simp [refsIn] at hr
      · rw [if_neg h2] at h
        exact Option.noConfusion h
  have heval : load_schema exampleSchemaStore 2 "b"
      = .ok (SDoc.obj (.cons "Contact" (.leaf "c-body") .nil)) := by
    simp [load_schema, loadDeps, exampleSchemaStore, substDoc, substProps, List.lookup]
  exact ⟨(load_schema_resolution exampleSchemaStore hwf).1 2 "b" _ heval,
    (load_schema_resolution exampleSchemaStore hwf).2 7⟩

end TapXero
